import Mathlib

/-!
Verification of a TypeScript parser-combinator library (src/result.ts,
src/index.ts) against its specification.

Embedding conventions:
- JS strings are modelled as `List Char` (one entry per code unit; all
  inputs exercised here are ASCII, where code units and characters agree).
- `Result` mirrors the two-variant tagged union of result.ts.
- A `Parser A` is a function from input to `Option (Result Error (List Char × A))`.
  The `Option` layer models partiality: `none` means the source function
  does not return (the unbounded `while (true)` loops of oneOrMore and
  zeroOrMore, and the unbounded mutual recursion of element and
  parentElement, are the only sources of non-termination, and are modelled
  with explicit fuel; running out of fuel yields `none`).  Fuel amounts
  are chosen so that whenever the source loop terminates on the parsers
  the repository builds, the model returns `some` of the same result.
-/

set_option maxHeartbeats 1000000

/-- Result from result.ts: a tagged union with exactly the two variants
Failure and Success. -/
inductive Result (E A : Type) where
  | failure (value : E)
  | success (value : A)
deriving DecidableEq, Repr

namespace R

/-- isFailure from result.ts. -/
def isFailure {E A : Type} : Result E A → Bool
  | .failure _ => true
  | .success _ => false

/-- isSuccess from result.ts. -/
def isSuccess {E A : Type} : Result E A → Bool
  | .failure _ => false
  | .success _ => true

/-- map from result.ts: applies f to the success payload, passes failure
through unchanged. -/
def map {E A B : Type} (result : Result E A) (f : A → B) : Result E B :=
  match result with
  | .failure e => .failure e
  | .success a => .success (f a)

/-- The reduce step of all from result.ts: if the accumulator is already
a failure, keep it; otherwise fold in the next result, turning its
failure into the accumulator or appending its value. -/
def allStep {E A : Type} (total : Result E (List A)) (val : Result E A) :
    Result E (List A) :=
  match total with
  | .failure e => .failure e
  | .success acc =>
    match val with
    | .failure e => Result.failure e
    | .success a => Result.success (acc ++ [a])

/-- all from result.ts: a left fold (Array.reduce) of the step above over
the list, starting from success of the empty list. -/
def all {E A : Type} (results : List (Result E A)) : Result E (List A) :=
  results.foldl allStep (Result.success [])

end R

/-- Error from index.ts: the unconsumed input at the point of failure. -/
abbrev Error := List Char

/-- ParserResult from index.ts. -/
abbrev ParserResult (A : Type) := Result Error (List Char × A)

/-- Parser from index.ts, with an Option layer recording partiality:
`none` models a call that never returns. -/
abbrev Parser (A : Type) := List Char → Option (ParserResult A)

/-- splitString from index.ts: JS `input.slice(0, length)` is `take`,
`input.slice(length)` is `drop`, and the match is reported as null
when fewer than `length` code units were available. -/
def splitString (input : List Char) (length : Nat) :
    Option (List Char) × List Char :=
  let m := input.take length
  let actualMatch := if m.length ≥ length then some m else none
  let rest := input.drop length
  (actualMatch, rest)

/-- map for parsers from index.ts (built on R.map). -/
def map {A B : Type} (parser : Parser A) (f : A → B) : Parser B :=
  fun input =>
    (parser input).map (fun r => R.map r (fun p => (p.1, f p.2)))

/-- pair from index.ts: run A, on failure return that failure; otherwise
run B on the remaining input, on failure return that failure; otherwise
succeed with both values. -/
def pair {A B : Type} (parserA : Parser A) (parserB : Parser B) :
    Parser (A × B) :=
  fun input =>
    match parserA input with
    | none => none
    | some (.failure e) => some (.failure e)
    | some (.success (rest, a)) =>
      match parserB rest with
      | none => none
      | some (.failure e) => some (.failure e)
      | some (.success (restB, b)) => some (.success (restB, (a, b)))

/-- left from index.ts. -/
def left {A B : Type} (parserA : Parser A) (parserB : Parser B) : Parser A :=
  map (pair parserA parserB) (fun p => p.1)

/-- right from index.ts. -/
def right {A B : Type} (parserA : Parser A) (parserB : Parser B) : Parser B :=
  map (pair parserA parserB) (fun p => p.2)

/-- The shared `while (true)` loop of oneOrMore and zeroOrMore from
index.ts: repeatedly apply the parser, accumulating values, until it
fails; return the input at which it failed together with the values.
The fuel argument models the unbounded loop: `none` on exhaustion means
the source loop has not terminated within that many iterations. -/
def repeatAux {A : Type} (parserA : Parser A) :
    Nat → List Char → List A → Option (List Char × List A)
  | 0, _, _ => none
  | fuel + 1, next, results =>
    match parserA next with
    | none => none
    | some (.success (n2, a)) => repeatAux parserA fuel n2 (results ++ [a])
    | some (.failure _) => some (next, results)

/-- oneOrMore from index.ts: one initial application whose failure is
propagated, then the shared loop seeded with the first value.  Fuel
`input.length` suffices for every terminating run of the source loop on
a parser whose successes consume input. -/
def oneOrMore {A : Type} (parserA : Parser A) : Parser (List A) :=
  fun input =>
    match parserA input with
    | none => none
    | some (.failure e) => some (.failure e)
    | some (.success (next, a)) =>
      match repeatAux parserA input.length next [a] with
      | none => none
      | some (n, results) => some (.success (n, results))

/-- zeroOrMore from index.ts: the shared loop seeded with the empty list;
the loop result is always wrapped in success. -/
def zeroOrMore {A : Type} (parserA : Parser A) : Parser (List A) :=
  fun input =>
    match repeatAux parserA (input.length + 1) input [] with
    | none => none
    | some (n, results) => some (.success (n, results))

/-- anyChar from index.ts: one code unit via splitString, failing with
the whole input when none is available. -/
def anyChar : Parser (List Char) :=
  fun input =>
    match splitString input 1 with
    | (some m, rest) => some (.success (rest, m))
    | (none, _) => some (.failure input)

/-- pred from index.ts: run the inner parser; propagate its failure; on
success test the value, failing with the ORIGINAL input when the
predicate rejects it. -/
def pred {A : Type} (parser : Parser A) (predicate : A → Bool) : Parser A :=
  fun input =>
    match parser input with
    | none => none
    | some (.failure e) => some (.failure e)
    | some (.success (rest, a)) =>
      if predicate a then some (.success (rest, a)) else some (.failure input)

/-- matchLiteral from index.ts: slice off lit.length code units; succeed
returning lit iff the slice is exactly lit (a null slice, from an input
that is too short, never equals the string lit). -/
def matchLiteral (lit : List Char) : Parser (List Char) :=
  fun input =>
    match splitString input lit.length with
    | (some m, rest) =>
      if m = lit then some (.success (rest, lit)) else some (.failure input)
    | (none, _) => some (.failure input)

/-- isAlphaNumeric from index.ts: charCodeAt(0) of a one-code-unit string
against the ASCII ranges 0-9, A-Z, a-z; an empty string has no code at
position 0 and every range test is false. -/
def isAlphaNumeric (char : List Char) : Bool :=
  match char with
  | [] => false
  | c :: _ =>
    let code := c.toNat
    decide ((47 < code ∧ code < 58) ∨ (64 < code ∧ code < 91) ∨
      (96 < code ∧ code < 123))

/-- alphaNumeric from index.ts. -/
def alphaNumeric : Parser (List Char) := pred anyChar isAlphaNumeric

/-- identifier from index.ts: one or more alphanumeric code units joined
into one string. -/
def identifier : Parser (List Char) :=
  map (oneOrMore alphaNumeric) (fun as => as.flatten)

/-- The predicate of whitespace from index.ts: a string that trims to
empty, i.e. every code unit is whitespace. -/
def isBlank (char : List Char) : Bool := char.all Char.isWhitespace

/-- whitespace from index.ts. -/
def whitespace : Parser (List Char) := pred anyChar isBlank

/-- space0 from index.ts. -/
def space0 : Parser (List (List Char)) := zeroOrMore whitespace

/-- space1 from index.ts. -/
def space1 : Parser (List (List Char)) := oneOrMore whitespace

/-- stringBetween from index.ts: startChar, then code units that are
neither delimiter, then endChar, yielding the joined middle. -/
def stringBetween (startChar endChar : List Char) : Parser (List Char) :=
  map
    (right (matchLiteral startChar)
      (left
        (zeroOrMore (pred anyChar (fun c => c ≠ startChar && c ≠ endChar)))
        (matchLiteral endChar)))
    (fun as => as.flatten)

/-- either from index.ts: try parser1; if it succeeds return its result;
otherwise run parser2 on the SAME original input. -/
def either {A : Type} (parser1 parser2 : Parser A) : Parser A :=
  fun input =>
    match parser1 input with
    | none => none
    | some (.success v) => some (.success v)
    | some (.failure _) => parser2 input

/-- andThen from index.ts: run A; propagate its failure; on success build
the second parser from the value and run it on the remaining input. -/
def andThen {A B : Type} (parserA : Parser A) (thenParserB : A → Parser B) :
    Parser B :=
  fun input =>
    match parserA input with
    | none => none
    | some (.failure e) => some (.failure e)
    | some (.success (next, a)) => (thenParserB a) next

/-- Element from index.ts: name, ordered attribute pairs, children. -/
inductive Element where
  | mk (name : List Char) (attributes : List (List Char × List Char))
      (children : List Element)

/-- The name field of an Element. -/
def Element.name : Element → List Char
  | .mk n _ _ => n

/-- The attributes field of an Element. -/
def Element.attributes : Element → List (List Char × List Char)
  | .mk _ a _ => a

/-- The children field of an Element. -/
def Element.children : Element → List Element
  | .mk _ _ c => c

/-- quotedString from index.ts. -/
def quotedString : Parser (List Char) := stringBetween ['"'] ['"']

/-- attributePair from index.ts. -/
def attributePair : Parser (List Char × List Char) :=
  pair identifier (right (matchLiteral ['=']) quotedString)

/-- attributes from index.ts. -/
def attributes : Parser (List (List Char × List Char)) :=
  zeroOrMore (right space1 attributePair)

/-- elementStart from index.ts. -/
def elementStart : Parser (List Char × List (List Char × List Char)) :=
  right (matchLiteral ['<']) (pair identifier attributes)

/-- singleElement from index.ts. -/
def singleElement : Parser Element :=
  map (left elementStart (matchLiteral ['/', '>']))
    (fun p => Element.mk p.1 p.2 [])

/-- openElement from index.ts. -/
def openElement : Parser Element :=
  map (left elementStart (matchLiteral ['>']))
    (fun p => Element.mk p.1 p.2 [])

/-- closeElement from index.ts. -/
def closeElement (expectedName : List Char) : Parser (List Char) :=
  pred (right (matchLiteral ['<', '/']) (left identifier (matchLiteral ['>'])))
    (fun name => name == expectedName)

/-- element and parentElement from index.ts, with fuel bounding the depth
of the mutual recursion (element is a zero-argument producer in the
source precisely so that this recursion unfolds on demand); running out
of fuel yields the non-returning parser, and fuel `input.length + 1` is
proved sufficient for every input below. -/
def elementFuel : Nat → Parser Element
  | 0 => fun _ => none
  | n + 1 =>
    either singleElement
      (andThen openElement (fun el =>
        map (left (zeroOrMore (elementFuel n)) (closeElement el.name))
          (fun children => Element.mk el.name el.attributes children)))

/-- element() from index.ts, at the sufficient fuel. -/
def element : Parser Element :=
  fun input => elementFuel (input.length + 1) input

/-- runParser from index.ts. -/
def runParser {A : Type} (parser : Parser A) (input : List Char) :
    Option (ParserResult A) :=
  parser input

/-! ## Proof infrastructure: totality and consumption predicates -/

/-- A parser returns (its call terminates) on every input. -/
def PTotal {A : Type} (p : Parser A) : Prop :=
  ∀ s, ∃ r, p s = some r

/-- Every success of the parser strictly consumes input. -/
def Consuming {A : Type} (p : Parser A) : Prop :=
  ∀ s r v, p s = some (.success (r, v)) → r.length < s.length

/-- No success of the parser fabricates input: the remainder is never
longer than the input. -/
def NonGrowing {A : Type} (p : Parser A) : Prop :=
  ∀ s r v, p s = some (.success (r, v)) → r.length ≤ s.length

theorem Consuming.nonGrowing {A : Type} {p : Parser A} (h : Consuming p) :
    NonGrowing p :=
  fun s r v hs => Nat.le_of_lt (h s r v hs)

/-- anyChar evaluated by cases on the input. -/
theorem anyChar_eq (s : List Char) :
    anyChar s = match s with
      | [] => some (.failure [])
      | c :: cs => some (.success (cs, [c])) := by
  cases s <;> rfl

theorem anyChar_total : PTotal anyChar := by
  intro s
  cases s <;> simp [anyChar_eq]

theorem anyChar_consuming : Consuming anyChar := by
  intro s r v h
  cases s with
  | nil => simp [anyChar_eq] at h
  | cons c cs =>
    simp [anyChar_eq] at h
    simp [h.1]

/-- splitString characterized: a null match exactly when the input is too
short; the remainder is always the drop. -/
theorem splitString_eq (input : List Char) (n : Nat) :
    splitString input n =
      (if n ≤ input.length then some (input.take n) else none,
        input.drop n) := by
  unfold splitString
  simp only [List.length_take, ge_iff_le]
  by_cases h : n ≤ input.length
  · rw [if_pos (by omega), if_pos h]
  · rw [if_neg (by omega), if_neg h]

/-- matchLiteral characterized: success with the drop remainder exactly
when the prefix of the right length is lit, with the whole input as the
error otherwise. -/
theorem matchLiteral_eq (lit s : List Char) :
    matchLiteral lit s =
      if lit.length ≤ s.length ∧ s.take lit.length = lit
      then some (.success (s.drop lit.length, lit))
      else some (.failure s) := by
  unfold matchLiteral
  rw [splitString_eq]
  by_cases h1 : lit.length ≤ s.length
  · rw [if_pos h1]
    by_cases h2 : s.take lit.length = lit
    · simp [h1, h2]
    · simp [h1, h2]
  · rw [if_neg h1]
    simp [h1]

theorem matchLiteral_total (lit : List Char) : PTotal (matchLiteral lit) := by
  intro s
  rw [matchLiteral_eq]
  by_cases h : lit.length ≤ s.length ∧ s.take lit.length = lit <;> simp [h]

/-- Inversion for matchLiteral success. -/
theorem matchLiteral_success {lit s r v : List Char}
    (h : matchLiteral lit s = some (.success (r, v))) :
    r = s.drop lit.length ∧ v = lit ∧ s.take lit.length = lit := by
  rw [matchLiteral_eq] at h
  by_cases hc : lit.length ≤ s.length ∧ s.take lit.length = lit
  · rw [if_pos hc] at h
    simp at h
    exact ⟨h.1.symm, h.2.symm, hc.2⟩
  · rw [if_neg hc] at h
    simp at h

theorem matchLiteral_nonGrowing (lit : List Char) :
    NonGrowing (matchLiteral lit) := by
  intro s r v h
  obtain ⟨hr, _, _⟩ := matchLiteral_success h
  subst hr
  simp

theorem matchLiteral_consuming {lit : List Char} (hlit : lit ≠ []) :
    Consuming (matchLiteral lit) := by
  intro s r v h
  obtain ⟨hr, _, htake⟩ := matchLiteral_success h
  subst hr
  have hpos : 0 < lit.length := List.length_pos.mpr hlit
  have hle : lit.length ≤ s.length := by
    have := congrArg List.length htake
    simp at this
    omega
  simp only [List.length_drop]
  omega
/-- Inversion for map success. -/
theorem map_success {A B : Type} {p : Parser A} {f : A → B} {s r : List Char}
    {b : B} (h : map p f s = some (.success (r, b))) :
    ∃ a, p s = some (.success (r, a)) ∧ b = f a := by
  unfold map at h
  rcases hp : p s with _ | r0
  · rw [hp] at h; simp at h
  · rcases r0 with e | ⟨rest, a⟩
    · rw [hp] at h; simp [R.map] at h
    · rw [hp] at h
      simp only [Option.map_some', R.map, Option.some.injEq,
        Result.success.injEq, Prod.mk.injEq] at h
      obtain ⟨h1, h2⟩ := h
      subst h1; subst h2
      exact ⟨a, rfl, rfl⟩

theorem map_total {A B : Type} {p : Parser A} (f : A → B) (hp : PTotal p) :
    PTotal (map p f) := by
  intro s
  obtain ⟨r, hr⟩ := hp s
  rcases r with e | ⟨rest, a⟩ <;> simp [map, hr, R.map]

theorem map_nonGrowing {A B : Type} {p : Parser A} (f : A → B)
    (hp : NonGrowing p) : NonGrowing (map p f) := by
  intro s r v h
  obtain ⟨a, ha, _⟩ := map_success h
  exact hp s r a ha

theorem map_consuming {A B : Type} {p : Parser A} (f : A → B)
    (hp : Consuming p) : Consuming (map p f) := by
  intro s r v h
  obtain ⟨a, ha, _⟩ := map_success h
  exact hp s r a ha

/-- Inversion for pred success: it is a success of the inner parser whose
value passed the predicate. -/
theorem pred_success {A : Type} {p : Parser A} {q : A → Bool} {s r : List Char}
    {a : A} (h : pred p q s = some (.success (r, a))) :
    p s = some (.success (r, a)) ∧ q a = true := by
  unfold pred at h
  rcases hp : p s with _ | r0
  · rw [hp] at h; simp at h
  · rcases r0 with e | ⟨rest, a0⟩
    · rw [hp] at h; simp at h
    · rw [hp] at h
      simp only at h
      by_cases hq : q a0
      · rw [if_pos hq] at h
        simp only [Option.some.injEq, Result.success.injEq, Prod.mk.injEq] at h
        obtain ⟨h1, h2⟩ := h
        subst h1; subst h2
        exact ⟨rfl, hq⟩
      · rw [if_neg hq] at h
        simp at h

theorem pred_total {A : Type} {p : Parser A} (q : A → Bool) (hp : PTotal p) :
    PTotal (pred p q) := by
  intro s
  obtain ⟨r, hr⟩ := hp s
  rcases r with e | ⟨rest, a⟩
  · simp [pred, hr]
  · by_cases hq : q a <;> simp [pred, hr, hq]

theorem pred_nonGrowing {A : Type} {p : Parser A} (q : A → Bool)
    (hp : NonGrowing p) : NonGrowing (pred p q) := by
  intro s r v h
  exact hp s r v (pred_success h).1

theorem pred_consuming {A : Type} {p : Parser A} (q : A → Bool)
    (hp : Consuming p) : Consuming (pred p q) := by
  intro s r v h
  exact hp s r v (pred_success h).1

/-- Inversion for pair success: both stages succeeded in sequence. -/
theorem pair_success {A B : Type} {pa : Parser A} {pb : Parser B}
    {s r : List Char} {a : A} {b : B}
    (h : pair pa pb s = some (.success (r, (a, b)))) :
    ∃ mid, pa s = some (.success (mid, a)) ∧ pb mid = some (.success (r, b)) := by
  unfold pair at h
  rcases hpa : pa s with _ | ra
  · rw [hpa] at h; simp at h
  · rcases ra with e | ⟨mid, a0⟩
    · rw [hpa] at h; simp at h
    · rw [hpa] at h
      simp only at h
      rcases hpb : pb mid with _ | rb
      · rw [hpb] at h; simp at h
      · rcases rb with e | ⟨restB, b0⟩
        · rw [hpb] at h; simp at h
        · rw [hpb] at h
          simp only [Option.some.injEq, Result.success.injEq, Prod.mk.injEq] at h
          obtain ⟨h1, h2, h3⟩ := h
          subst h1; subst h2; subst h3
          exact ⟨mid, rfl, hpb⟩

theorem pair_total {A B : Type} {pa : Parser A} {pb : Parser B}
    (ha : PTotal pa) (hb : PTotal pb) : PTotal (pair pa pb) := by
  intro s
  obtain ⟨ra, hra⟩ := ha s
  rcases ra with e | ⟨mid, a⟩
  · simp [pair, hra]
  · obtain ⟨rb, hrb⟩ := hb mid
    rcases rb with e | ⟨restB, b⟩ <;> simp [pair, hra, hrb]

theorem pair_nonGrowing {A B : Type} {pa : Parser A} {pb : Parser B}
    (ha : NonGrowing pa) (hb : NonGrowing pb) : NonGrowing (pair pa pb) := by
  intro s r v h
  rcases v with ⟨a, b⟩
  obtain ⟨mid, hpa, hpb⟩ := pair_success h
  exact le_trans (hb mid r b hpb) (ha s mid a hpa)

theorem pair_consuming_left {A B : Type} {pa : Parser A} {pb : Parser B}
    (ha : Consuming pa) (hb : NonGrowing pb) : Consuming (pair pa pb) := by
  intro s r v h
  rcases v with ⟨a, b⟩
  obtain ⟨mid, hpa, hpb⟩ := pair_success h
  exact lt_of_le_of_lt (hb mid r b hpb) (ha s mid a hpa)

theorem pair_consuming_right {A B : Type} {pa : Parser A} {pb : Parser B}
    (ha : NonGrowing pa) (hb : Consuming pb) : Consuming (pair pa pb) := by
  intro s r v h
  rcases v with ⟨a, b⟩
  obtain ⟨mid, hpa, hpb⟩ := pair_success h
  exact lt_of_lt_of_le (hb mid r b hpb) (ha s mid a hpa)

theorem left_total {A B : Type} {pa : Parser A} {pb : Parser B}
    (ha : PTotal pa) (hb : PTotal pb) : PTotal (left pa pb) :=
  map_total _ (pair_total ha hb)

theorem left_nonGrowing {A B : Type} {pa : Parser A} {pb : Parser B}
    (ha : NonGrowing pa) (hb : NonGrowing pb) : NonGrowing (left pa pb) :=
  map_nonGrowing _ (pair_nonGrowing ha hb)

theorem left_consuming_left {A B : Type} {pa : Parser A} {pb : Parser B}
    (ha : Consuming pa) (hb : NonGrowing pb) : Consuming (left pa pb) :=
  map_consuming _ (pair_consuming_left ha hb)

theorem right_total {A B : Type} {pa : Parser A} {pb : Parser B}
    (ha : PTotal pa) (hb : PTotal pb) : PTotal (right pa pb) :=
  map_total _ (pair_total ha hb)

theorem right_nonGrowing {A B : Type} {pa : Parser A} {pb : Parser B}
    (ha : NonGrowing pa) (hb : NonGrowing pb) : NonGrowing (right pa pb) :=
  map_nonGrowing _ (pair_nonGrowing ha hb)

theorem right_consuming_left {A B : Type} {pa : Parser A} {pb : Parser B}
    (ha : Consuming pa) (hb : NonGrowing pb) : Consuming (right pa pb) :=
  map_consuming _ (pair_consuming_left ha hb)

theorem right_consuming_right {A B : Type} {pa : Parser A} {pb : Parser B}
    (ha : NonGrowing pa) (hb : Consuming pb) : Consuming (right pa pb) :=
  map_consuming _ (pair_consuming_right ha hb)

/-- A success of either is a success of one of its branches (on the same
original input). -/
theorem either_success {A : Type} {p1 p2 : Parser A} {s : List Char}
    {v : List Char × A} (h : either p1 p2 s = some (.success v)) :
    p1 s = some (.success v) ∨ p2 s = some (.success v) := by
  unfold either at h
  rcases h1 : p1 s with _ | r1
  · rw [h1] at h; simp at h
  · rcases r1 with e | v1
    · rw [h1] at h
      simp only at h
      exact Or.inr h
    · rw [h1] at h
      simp only [Option.some.injEq, Result.success.injEq] at h
      subst h
      exact Or.inl rfl

theorem either_total {A : Type} {p1 p2 : Parser A}
    (h1 : PTotal p1) (h2 : PTotal p2) : PTotal (either p1 p2) := by
  intro s
  obtain ⟨r1, hr1⟩ := h1 s
  rcases r1 with e | v1
  · obtain ⟨r2, hr2⟩ := h2 s
    exact ⟨r2, by simp [either, hr1, hr2]⟩
  · exact ⟨.success v1, by simp [either, hr1]⟩

theorem either_nonGrowing {A : Type} {p1 p2 : Parser A}
    (h1 : NonGrowing p1) (h2 : NonGrowing p2) : NonGrowing (either p1 p2) := by
  intro s r v h
  rcases either_success h with hs | hs
  · exact h1 s r v hs
  · exact h2 s r v hs

theorem either_consuming {A : Type} {p1 p2 : Parser A}
    (h1 : Consuming p1) (h2 : Consuming p2) : Consuming (either p1 p2) := by
  intro s r v h
  rcases either_success h with hs | hs
  · exact h1 s r v hs
  · exact h2 s r v hs

/-- Inversion for andThen success: the first stage succeeded and the
continuation parser, built from its value, succeeded on its remainder. -/
theorem andThen_success {A B : Type} {pa : Parser A} {cont : A → Parser B}
    {s : List Char} {v : List Char × B}
    (h : andThen pa cont s = some (.success v)) :
    ∃ mid a, pa s = some (.success (mid, a)) ∧
      cont a mid = some (.success v) := by
  unfold andThen at h
  rcases hpa : pa s with _ | ra
  · rw [hpa] at h; simp at h
  · rcases ra with e | ⟨mid, a⟩
    · rw [hpa] at h; simp at h
    · rw [hpa] at h
      simp only at h
      exact ⟨mid, a, rfl, h⟩

theorem andThen_nonGrowing {A B : Type} {pa : Parser A} {cont : A → Parser B}
    (ha : NonGrowing pa) (hc : ∀ a, NonGrowing (cont a)) :
    NonGrowing (andThen pa cont) := by
  intro s r v h
  obtain ⟨mid, a, hpa, hcont⟩ := andThen_success h
  exact le_trans (hc a mid r v hcont) (ha s mid a hpa)

theorem andThen_consuming_left {A B : Type} {pa : Parser A}
    {cont : A → Parser B} (ha : Consuming pa)
    (hc : ∀ a, NonGrowing (cont a)) : Consuming (andThen pa cont) := by
  intro s r v h
  obtain ⟨mid, a, hpa, hcont⟩ := andThen_success h
  exact lt_of_le_of_lt (hc a mid r v hcont) (ha s mid a hpa)

/-- The repetition loop never grows the input. -/
theorem repeatAux_nonGrowing {A : Type} {p : Parser A} (hp : NonGrowing p) :
    ∀ (fuel : Nat) (next : List Char) (acc : List A) (n2 : List Char)
      (res : List A),
      repeatAux p fuel next acc = some (n2, res) → n2.length ≤ next.length := by
  intro fuel
  induction fuel with
  | zero => intro next acc n2 res h; simp [repeatAux] at h
  | succ f ih =>
    intro next acc n2 res h
    unfold repeatAux at h
    rcases hp1 : p next with _ | r
    · rw [hp1] at h; simp at h
    · rcases r with e | ⟨m, a⟩
      · rw [hp1] at h
        simp only [Option.some.injEq, Prod.mk.injEq] at h
        obtain ⟨h1, _⟩ := h
        subst h1
        exact le_refl _
      · rw [hp1] at h
        simp only at h
        have hrec := ih m (acc ++ [a]) n2 res h
        have hm := hp next m a hp1
        omega

/-- The repetition loop terminates: with a consuming parser that returns
on every input up to length m, fuel exceeding the input length
suffices. -/
theorem repeatAux_total {A : Type} {p : Parser A} (hc : Consuming p) (m : Nat)
    (ht : ∀ t : List Char, t.length ≤ m → ∃ r, p t = some r) :
    ∀ (fuel : Nat) (next : List Char) (acc : List A),
      next.length ≤ m → next.length < fuel →
      ∃ out, repeatAux p fuel next acc = some out := by
  intro fuel
  induction fuel with
  | zero => intro next acc h1 h2; omega
  | succ f ih =>
    intro next acc h1 h2
    obtain ⟨r, hr⟩ := ht next h1
    rcases r with e | ⟨n2, a⟩
    · exact ⟨(next, acc), by unfold repeatAux; rw [hr]⟩
    · have hlt := hc next n2 a hr
      obtain ⟨out, hout⟩ := ih n2 (acc ++ [a]) (by omega) (by omega)
      refine ⟨out, ?_⟩
      unfold repeatAux
      rw [hr]
      simpa using hout

/-- Inversion for zeroOrMore success. -/
theorem zeroOrMore_success {A : Type} {p : Parser A} {s r : List Char}
    {vs : List A} (h : zeroOrMore p s = some (.success (r, vs))) :
    repeatAux p (s.length + 1) s [] = some (r, vs) := by
  unfold zeroOrMore at h
  rcases hra : repeatAux p (s.length + 1) s [] with _ | ⟨n, res⟩
  · rw [hra] at h; simp at h
  · rw [hra] at h
    simp only [Option.some.injEq, Result.success.injEq, Prod.mk.injEq] at h
    obtain ⟨h1, h2⟩ := h
    subst h1; subst h2
    rfl

theorem zeroOrMore_total_below {A : Type} {p : Parser A} (hc : Consuming p)
    (m : Nat) (ht : ∀ t : List Char, t.length ≤ m → ∃ r, p t = some r) :
    ∀ s : List Char, s.length ≤ m → ∃ r, zeroOrMore p s = some r := by
  intro s hs
  obtain ⟨out, hout⟩ :=
    repeatAux_total hc m ht (s.length + 1) s [] hs (by omega)
  rcases out with ⟨n, res⟩
  exact ⟨.success (n, res), by unfold zeroOrMore; rw [hout]⟩

theorem zeroOrMore_total {A : Type} {p : Parser A} (hc : Consuming p)
    (ht : PTotal p) : PTotal (zeroOrMore p) := by
  intro s
  exact zeroOrMore_total_below hc s.length (fun t _ => ht t) s (le_refl _)

theorem zeroOrMore_nonGrowing {A : Type} {p : Parser A} (hp : NonGrowing p) :
    NonGrowing (zeroOrMore p) := by
  intro s r vs h
  exact repeatAux_nonGrowing hp _ _ _ _ _ (zeroOrMore_success h)

/-- Inversion for oneOrMore success. -/
theorem oneOrMore_success {A : Type} {p : Parser A} {s r : List Char}
    {vs : List A} (h : oneOrMore p s = some (.success (r, vs))) :
    ∃ next a, p s = some (.success (next, a)) ∧
      repeatAux p s.length next [a] = some (r, vs) := by
  unfold oneOrMore at h
  rcases hp1 : p s with _ | r0
  · rw [hp1] at h; simp at h
  · rcases r0 with e | ⟨next, a⟩
    · rw [hp1] at h; simp at h
    · rw [hp1] at h
      simp only at h
      rcases hra : repeatAux p s.length next [a] with _ | ⟨n, res⟩
      · rw [hra] at h; simp at h
      · rw [hra] at h
        simp only [Option.some.injEq, Result.success.injEq, Prod.mk.injEq] at h
        obtain ⟨h1, h2⟩ := h
        subst h1; subst h2
        exact ⟨next, a, rfl, hra⟩

theorem oneOrMore_total {A : Type} {p : Parser A} (hc : Consuming p)
    (ht : PTotal p) : PTotal (oneOrMore p) := by
  intro s
  obtain ⟨r, hr⟩ := ht s
  rcases r with e | ⟨next, a⟩
  · exact ⟨.failure e, by unfold oneOrMore; rw [hr]⟩
  · have hlt := hc s next a hr
    obtain ⟨out, hout⟩ :=
      repeatAux_total hc s.length (fun t _ => ht t) s.length next [a]
        (by omega) (by omega)
    rcases out with ⟨n, res⟩
    refine ⟨.success (n, res), ?_⟩
    unfold oneOrMore
    rw [hr]
    simp only
    rw [hout]

theorem oneOrMore_nonGrowing {A : Type} {p : Parser A} (hp : NonGrowing p) :
    NonGrowing (oneOrMore p) := by
  intro s r vs h
  obtain ⟨next, a, h1, h2⟩ := oneOrMore_success h
  have := repeatAux_nonGrowing hp _ _ _ _ _ h2
  have := hp s next a h1
  omega

theorem oneOrMore_consuming {A : Type} {p : Parser A} (hc : Consuming p) :
    Consuming (oneOrMore p) := by
  intro s r vs h
  obtain ⟨next, a, h1, h2⟩ := oneOrMore_success h
  have := repeatAux_nonGrowing hc.nonGrowing _ _ _ _ _ h2
  have := hc s next a h1
  omega

/-! ## Pointwise return lemmas, for inputs reached during the element
recursion -/

theorem map_some_point {A B : Type} {p : Parser A} {f : A → B} {s : List Char}
    (h : ∃ r, p s = some r) : ∃ r, map p f s = some r := by
  obtain ⟨r, hr⟩ := h
  rcases r with e | ⟨rest, a⟩
  · exact ⟨.failure e, by simp [map, hr, R.map]⟩
  · exact ⟨.success (rest, f a), by simp [map, hr, R.map]⟩

theorem pair_some_point {A B : Type} {pa : Parser A} {pb : Parser B}
    {s : List Char} (h1 : ∃ r, pa s = some r)
    (h2 : ∀ mid a, pa s = some (.success (mid, a)) → ∃ r, pb mid = some r) :
    ∃ r, pair pa pb s = some r := by
  obtain ⟨ra, hra⟩ := h1
  rcases ra with e | ⟨mid, a⟩
  · exact ⟨.failure e, by simp [pair, hra]⟩
  · obtain ⟨rb, hrb⟩ := h2 mid a hra
    rcases rb with e | ⟨restB, b⟩
    · exact ⟨.failure e, by simp [pair, hra, hrb]⟩
    · exact ⟨.success (restB, (a, b)), by simp [pair, hra, hrb]⟩

theorem left_some_point {A B : Type} {pa : Parser A} {pb : Parser B}
    {s : List Char} (h1 : ∃ r, pa s = some r)
    (h2 : ∀ mid a, pa s = some (.success (mid, a)) → ∃ r, pb mid = some r) :
    ∃ r, left pa pb s = some r := by
  unfold left
  exact map_some_point (pair_some_point h1 h2)

theorem either_some_point {A : Type} {p1 p2 : Parser A} {s : List Char}
    (h1 : ∃ r, p1 s = some r) (h2 : ∃ r, p2 s = some r) :
    ∃ r, either p1 p2 s = some r := by
  obtain ⟨r1, hr1⟩ := h1
  rcases r1 with e | v
  · obtain ⟨r2, hr2⟩ := h2
    exact ⟨r2, by simp [either, hr1, hr2]⟩
  · exact ⟨.success v, by simp [either, hr1]⟩

theorem andThen_some_point {A B : Type} {pa : Parser A} {cont : A → Parser B}
    {s : List Char} (h1 : ∃ r, pa s = some r)
    (h2 : ∀ mid a, pa s = some (.success (mid, a)) →
      ∃ r, cont a mid = some r) :
    ∃ r, andThen pa cont s = some r := by
  obtain ⟨ra, hra⟩ := h1
  rcases ra with e | ⟨mid, a⟩
  · exact ⟨.failure e, by simp [andThen, hra]⟩
  · obtain ⟨rb, hrb⟩ := h2 mid a hra
    exact ⟨rb, by simp [andThen, hra, hrb]⟩

/-! ## The markup grammar: every fixed piece returns, and consumes -/

theorem alphaNumeric_total : PTotal alphaNumeric :=
  pred_total _ anyChar_total

theorem alphaNumeric_consuming : Consuming alphaNumeric :=
  pred_consuming _ anyChar_consuming

theorem identifier_total : PTotal identifier :=
  map_total _ (oneOrMore_total alphaNumeric_consuming alphaNumeric_total)

theorem identifier_consuming : Consuming identifier :=
  map_consuming _ (oneOrMore_consuming alphaNumeric_consuming)

theorem whitespace_total : PTotal whitespace :=
  pred_total _ anyChar_total

theorem whitespace_consuming : Consuming whitespace :=
  pred_consuming _ anyChar_consuming

theorem space1_total : PTotal space1 :=
  oneOrMore_total whitespace_consuming whitespace_total

theorem space1_consuming : Consuming space1 :=
  oneOrMore_consuming whitespace_consuming

theorem stringBetween_total (a b : List Char) : PTotal (stringBetween a b) :=
  map_total _ (right_total (matchLiteral_total a)
    (left_total
      (zeroOrMore_total (pred_consuming _ anyChar_consuming)
        (pred_total _ anyChar_total))
      (matchLiteral_total b)))

theorem stringBetween_nonGrowing (a b : List Char) :
    NonGrowing (stringBetween a b) :=
  map_nonGrowing _ (right_nonGrowing (matchLiteral_nonGrowing a)
    (left_nonGrowing
      (zeroOrMore_nonGrowing (pred_nonGrowing _ anyChar_consuming.nonGrowing))
      (matchLiteral_nonGrowing b)))

theorem quotedString_total : PTotal quotedString :=
  stringBetween_total _ _

theorem quotedString_nonGrowing : NonGrowing quotedString :=
  stringBetween_nonGrowing _ _

theorem attributePair_total : PTotal attributePair :=
  pair_total identifier_total
    (right_total (matchLiteral_total _) quotedString_total)

theorem attributePair_nonGrowing : NonGrowing attributePair :=
  pair_nonGrowing identifier_consuming.nonGrowing
    (right_nonGrowing (matchLiteral_nonGrowing _) quotedString_nonGrowing)

theorem attributes_total : PTotal attributes :=
  zeroOrMore_total
    (right_consuming_left space1_consuming attributePair_nonGrowing)
    (right_total space1_total attributePair_total)

theorem attributes_nonGrowing : NonGrowing attributes :=
  zeroOrMore_nonGrowing
    (right_nonGrowing space1_consuming.nonGrowing attributePair_nonGrowing)

theorem elementStart_total : PTotal elementStart :=
  right_total (matchLiteral_total _)
    (pair_total identifier_total attributes_total)

theorem elementStart_consuming : Consuming elementStart :=
  right_consuming_left (matchLiteral_consuming (by simp))
    (pair_nonGrowing identifier_consuming.nonGrowing attributes_nonGrowing)

theorem singleElement_total : PTotal singleElement :=
  map_total _ (left_total elementStart_total (matchLiteral_total _))

theorem singleElement_consuming : Consuming singleElement :=
  map_consuming _ (left_consuming_left elementStart_consuming
    (matchLiteral_nonGrowing _))

theorem openElement_total : PTotal openElement :=
  map_total _ (left_total elementStart_total (matchLiteral_total _))

theorem openElement_consuming : Consuming openElement :=
  map_consuming _ (left_consuming_left elementStart_consuming
    (matchLiteral_nonGrowing _))

theorem closeElement_total (nm : List Char) : PTotal (closeElement nm) :=
  pred_total _ (right_total (matchLiteral_total _)
    (left_total identifier_total (matchLiteral_total _)))

theorem closeElement_nonGrowing (nm : List Char) :
    NonGrowing (closeElement nm) :=
  pred_nonGrowing _ (right_nonGrowing (matchLiteral_nonGrowing _)
    (left_nonGrowing identifier_consuming.nonGrowing
      (matchLiteral_nonGrowing _)))

theorem elementFuel_consuming : ∀ n, Consuming (elementFuel n) := by
  intro n
  induction n with
  | zero =>
    intro s r v h
    simp [elementFuel] at h
  | succ n ih =>
    unfold elementFuel
    exact either_consuming singleElement_consuming
      (andThen_consuming_left openElement_consuming
        (fun el => map_nonGrowing _ (left_nonGrowing
          (zeroOrMore_nonGrowing ih.nonGrowing)
          (closeElement_nonGrowing el.name))))

theorem elementFuel_total :
    ∀ (n : Nat) (s : List Char), s.length < n →
      ∃ r, elementFuel n s = some r := by
  intro n
  induction n with
  | zero => intro s h; omega
  | succ n ih =>
    intro s hs
    unfold elementFuel
    apply either_some_point (singleElement_total s)
    apply andThen_some_point (openElement_total s)
    intro mid el hopen
    have hmid : mid.length < s.length := openElement_consuming s mid el hopen
    apply map_some_point
    apply left_some_point
    · exact zeroOrMore_total_below (elementFuel_consuming n) mid.length
        (fun t ht => ih t (by omega)) mid (le_refl _)
    · intro mid2 children hz
      exact closeElement_total el.name mid2

/-- Folding from an already-failed accumulator keeps that failure. -/
theorem allStep_foldl_failure {E A : Type} (l : List (Result E A)) (e : E) :
    l.foldl R.allStep (.failure e) = .failure e := by
  induction l with
  | nil => rfl
  | cons x xs ih => simpa [R.allStep] using ih

/-- Folding a list of successes appends all their values in order. -/
theorem allStep_foldl_successes {E A : Type} (l acc : List A) :
    (l.map Result.success).foldl (R.allStep (E := E)) (.success acc) =
      .success (acc ++ l) := by
  induction l generalizing acc with
  | nil => simp
  | cons x xs ih => simp [R.allStep, ih]

/-- Every list of results is either all successes or a success prefix
followed by its first failure. -/
theorem results_decompose {E A : Type} (results : List (Result E A)) :
    (∃ l : List A, results = l.map Result.success) ∨
    (∃ (pre : List A) (e : E) (rest : List (Result E A)),
      results = pre.map Result.success ++ .failure e :: rest) := by
  induction results with
  | nil => exact Or.inl ⟨[], rfl⟩
  | cons r rs ih =>
    rcases r with e | a
    · exact Or.inr ⟨[], e, rs, rfl⟩
    · rcases ih with ⟨l, hl⟩ | ⟨pre, e, rest, hr⟩
      · exact Or.inl ⟨a :: l, by simp [hl]⟩
      · exact Or.inr ⟨a :: pre, e, rest, by simp [hr]⟩

/-! ## Claims -/

/-- C1 counterexample: pair with first stage succeeding and second stage
failing returns an error that is the partially-consumed remainder, not
the input with which the pair parser itself was invoked. -/
theorem c1_counterexample :
    pair (matchLiteral "a".toList) (matchLiteral "b".toList) "ax".toList =
      some (.failure "x".toList) ∧
    "x".toList ≠ "ax".toList := by
  constructor
  · decide
  · decide

/-- C1 (amended): a failure of the second stage of pair, left, right, or
andThen is propagated verbatim, so the error it carries is the input at
which the failing second stage was invoked: the remainder left by the
first stage, which may be a proper suffix of the input of the combined
parser. -/
theorem c1_second_stage_failure {A B : Type} (pa : Parser A) (pb : Parser B)
    (cont : A → Parser B) (input rest : List Char) (a : A) (e : Error)
    (hA : pa input = some (.success (rest, a)))
    (hB : pb rest = some (.failure e))
    (hC : cont a rest = some (.failure e)) :
    pair pa pb input = some (.failure e) ∧
    left pa pb input = some (.failure e) ∧
    right pa pb input = some (.failure e) ∧
    andThen pa cont input = some (.failure e) := by
  refine ⟨?_, ?_, ?_, ?_⟩
  · simp [pair, hA, hB]
  · simp [left, map, pair, hA, hB, R.map]
  · simp [right, map, pair, hA, hB, R.map]
  · simp [andThen, hA, hC]

/-- C1 witness: the amended statement at the counterexample input. -/
theorem c1_second_stage_failure_witness :
    pair (matchLiteral "a".toList) (matchLiteral "b".toList) "ax".toList =
      some (.failure "x".toList) ∧
    left (matchLiteral "a".toList) (matchLiteral "b".toList) "ax".toList =
      some (.failure "x".toList) ∧
    right (matchLiteral "a".toList) (matchLiteral "b".toList) "ax".toList =
      some (.failure "x".toList) ∧
    andThen (matchLiteral "a".toList) (fun _ => matchLiteral "b".toList)
      "ax".toList = some (.failure "x".toList) :=
  c1_second_stage_failure (matchLiteral "a".toList) (matchLiteral "b".toList)
    (fun _ => matchLiteral "b".toList) "ax".toList "x".toList "a".toList
    "x".toList (by decide) (by decide) (by decide)

/-- C2 counterexample: matchLiteral of the empty literal succeeds while
consuming nothing, so not every matchLiteral is consuming. -/
theorem c2_counterexample :
    matchLiteral ([] : List Char) "a".toList =
      some (.success ("a".toList, [])) ∧
    ¬ ("a".toList.length < "a".toList.length) := by
  constructor
  · decide
  · omega

/-- C2 (amended): anyChar, matchLiteral of any NONEMPTY literal, and pred
applied to a consuming parser can only succeed while strictly consuming
input. -/
theorem c2_primitives_consume :
    Consuming anyChar ∧
    (∀ lit : List Char, lit ≠ [] → Consuming (matchLiteral lit)) ∧
    (∀ (A : Type) (p : Parser A) (q : A → Bool), Consuming p →
      Consuming (pred p q)) :=
  ⟨anyChar_consuming, fun _ h => matchLiteral_consuming h,
    fun _ _ q h => pred_consuming q h⟩

/-- C2 witness: the amended statement applied to matchLiteral "a" on
"apoo". -/
theorem c2_primitives_consume_witness :
    "poo".toList.length < "apoo".toList.length :=
  c2_primitives_consume.2.1 "a".toList (by decide) "apoo".toList "poo".toList
    "a".toList (by decide)

/-- C3: either is ordered choice with backtracking: a success of the
first parser is returned as is (so the first branch wins whenever it
succeeds), and on its failure the second parser is run on the SAME
original input either received. -/
theorem c3_either_ordered {A : Type} (parser1 parser2 : Parser A)
    (input : List Char) :
    (∀ v, parser1 input = some (.success v) →
      either parser1 parser2 input = some (.success v)) ∧
    (∀ e, parser1 input = some (.failure e) →
      either parser1 parser2 input = parser2 input) := by
  constructor
  · intro v h; simp [either, h]
  · intro e h; simp [either, h]

/-- C3 witness: both branches would succeed on "ab", and either returns
the result of the first branch. -/
theorem c3_either_ordered_witness :
    either (matchLiteral "a".toList) (matchLiteral "ab".toList) "ab".toList =
      some (.success ("b".toList, "a".toList)) :=
  (c3_either_ordered (matchLiteral "a".toList) (matchLiteral "ab".toList)
    "ab".toList).1 ("b".toList, "a".toList) (by decide)

/-- C4: pred propagates an inner failure unchanged, and when the inner
parser succeeds with a value the predicate rejects, pred fails with
exactly the original input pred was given, regardless of how much the
inner parser consumed. -/
theorem c4_pred_backtracks {A : Type} (parser : Parser A)
    (predicate : A → Bool) (input : List Char) :
    (∀ e, parser input = some (.failure e) →
      pred parser predicate input = some (.failure e)) ∧
    (∀ rest a, parser input = some (.success (rest, a)) →
      predicate a = false →
      pred parser predicate input = some (.failure input)) := by
  constructor
  · intro e h; simp [pred, h]
  · intro rest a h hq; simp [pred, h, hq]

/-- C4 witness: the inner parser consumed two characters, yet pred fails
with the whole original input. -/
theorem c4_pred_backtracks_witness :
    pred (matchLiteral "ab".toList) (fun _ => false) "abc".toList =
      some (.failure "abc".toList) :=
  (c4_pred_backtracks (matchLiteral "ab".toList) (fun _ => false)
    "abc".toList).2 "c".toList "ab".toList (by decide) rfl

/-- C5: element() on the nested markup example produces the div Element
with its class attribute and a single img child carrying its src
attribute, with no input left over. -/
theorem c5_element_example :
    element "<div class=\"float\"><img src=\"hello.jpg\"/></div>".toList =
      some (.success ([],
        Element.mk "div".toList [("class".toList, "float".toList)]
          [Element.mk "img".toList [("src".toList, "hello.jpg".toList)] []])) := by
  have hs : singleElement
      "<div class=\"float\"><img src=\"hello.jpg\"/></div>".toList =
      some (.failure "><img src=\"hello.jpg\"/></div>".toList) := by rfl
  have ho : openElement
      "<div class=\"float\"><img src=\"hello.jpg\"/></div>".toList =
      some (.success ("<img src=\"hello.jpg\"/></div>".toList,
        Element.mk "div".toList [("class".toList, "float".toList)] [])) := by
    rfl
  have hz : zeroOrMore (elementFuel 47) "<img src=\"hello.jpg\"/></div>".toList =
      some (.success ("</div>".toList,
        [Element.mk "img".toList [("src".toList, "hello.jpg".toList)] []])) := by
    rfl
  have hc : closeElement "div".toList "</div>".toList =
      some (.success ([], "div".toList)) := by rfl
  show elementFuel 48
      "<div class=\"float\"><img src=\"hello.jpg\"/></div>".toList = _
  rw [show elementFuel 48 = either singleElement
      (andThen openElement (fun el =>
        map (left (zeroOrMore (elementFuel 47)) (closeElement el.name))
          (fun children => Element.mk el.name el.attributes children)))
    from rfl]
  simp only [either, andThen, map, left, pair, hs, ho, hz, hc,
    Option.map, R.map, Element.name, Element.attributes]

/-- C6: zeroOrMore never returns a Failure, and when the first
application of the inner parser fails it succeeds with the original
input unchanged and the empty list of values. -/
theorem c6_zeroOrMore_total {A : Type} (p : Parser A) (input : List Char) :
    (∀ r, zeroOrMore p input = some r → ∃ v, r = .success v) ∧
    (∀ e, p input = some (.failure e) →
      zeroOrMore p input = some (.success (input, []))) := by
  constructor
  · intro r h
    unfold zeroOrMore at h
    rcases hra : repeatAux p (input.length + 1) input [] with _ | ⟨n, res⟩
    · rw [hra] at h; simp at h
    · rw [hra] at h
      simp only [Option.some.injEq] at h
      exact ⟨(n, res), h.symm⟩
  · intro e h
    unfold zeroOrMore
    have hra : repeatAux p (input.length + 1) input [] = some (input, []) := by
      unfold repeatAux
      rw [h]
    rw [hra]

/-- C6 witness: zeroOrMore of a literal that does not match succeeds
with the untouched input and no values. -/
theorem c6_zeroOrMore_total_witness :
    zeroOrMore (matchLiteral " ".toList) "dog".toList =
      some (.success ("dog".toList, [])) :=
  (c6_zeroOrMore_total (matchLiteral " ".toList) "dog".toList).2 "dog".toList
    (by decide)

/-- C7: matchLiteral succeeds, consuming exactly the length of the literal and
returning the literal, exactly when the prefix of that length equals the
literal; otherwise (in particular on any shorter input) it fails with
the entire original input. -/
theorem c7_matchLiteral_exact (lit input : List Char) :
    (matchLiteral lit input =
        some (.success (input.drop lit.length, lit)) ↔
      input.take lit.length = lit) ∧
    (input.take lit.length ≠ lit →
      matchLiteral lit input = some (.failure input)) := by
  constructor
  · constructor
    · intro h
      exact (matchLiteral_success h).2.2
    · intro h
      rw [matchLiteral_eq]
      have hlen : lit.length ≤ input.length := by
        have := congrArg List.length h
        simp at this
        omega
      rw [if_pos ⟨hlen, h⟩]
  · intro h
    rw [matchLiteral_eq]
    rw [if_neg (by tauto)]

/-- C7 witness: a matching prefix succeeds consuming it; a mismatch and a
too-short input both fail with the whole original input. -/
theorem c7_matchLiteral_exact_witness :
    matchLiteral "a".toList "apoo".toList =
      some (.success ("poo".toList, "a".toList)) ∧
    matchLiteral "a".toList "poo".toList = some (.failure "poo".toList) ∧
    matchLiteral "dog".toList "do".toList = some (.failure "do".toList) := by
  refine ⟨?_, ?_, ?_⟩
  · exact (c7_matchLiteral_exact "a".toList "apoo".toList).1.mpr (by decide)
  · exact (c7_matchLiteral_exact "a".toList "poo".toList).2 (by decide)
  · exact (c7_matchLiteral_exact "dog".toList "do".toList).2 (by decide)

/-- C8: running the top-level element parser returns (a Success or a
Failure) on every finite input: the markup grammar terminates. -/
theorem c8_element_terminates (input : List Char) :
    ∃ r, runParser element input = some r := by
  unfold runParser element
  exact elementFuel_total (input.length + 1) input (by omega)

/-- C9: all of the empty list is success of the empty list; all of a list
of successes collects the values in order; all of a list with a failure
returns the first failure, scanning left to right. -/
theorem c9_all {E A : Type} :
    R.all ([] : List (Result E A)) = .success [] ∧
    (∀ l : List A, R.all (l.map Result.success : List (Result E A)) =
      .success l) ∧
    (∀ (pre : List A) (e : E) (rest : List (Result E A)),
      R.all (pre.map Result.success ++ .failure e :: rest) = .failure e) ∧
    (∀ results : List (Result E A),
      (∃ l : List A, results = l.map Result.success) ∨
      (∃ (pre : List A) (e : E) (rest : List (Result E A)),
        results = pre.map Result.success ++ .failure e :: rest)) := by
  refine ⟨rfl, ?_, ?_, results_decompose⟩
  · intro l
    unfold R.all
    simpa using allStep_foldl_successes l []
  · intro pre e rest
    unfold R.all
    rw [List.foldl_append]
    rw [show (pre.map Result.success).foldl (R.allStep (E := E))
        (.success []) = .success pre by simpa using allStep_foldl_successes pre []]
    rw [List.foldl_cons]
    show rest.foldl R.allStep (.failure e) = .failure e
    exact allStep_foldl_failure rest e

/-- C10: whenever the inner parser succeeds on the input, oneOrMore and
zeroOrMore agree exactly (they share the same loop from that point); the
two can differ only when the first application fails. -/
theorem c10_oneOrMore_eq_zeroOrMore {A : Type} (p : Parser A)
    (input next : List Char) (a : A)
    (h : p input = some (.success (next, a))) :
    oneOrMore p input = zeroOrMore p input := by
  have hstep : repeatAux p (input.length + 1) input [] =
      repeatAux p input.length next [a] := by
    conv_lhs => unfold repeatAux
    rw [h]
    rfl
  unfold oneOrMore zeroOrMore
  rw [h, hstep]

/-- C10 witness: the two repetition combinators agree on "ddddog" where
the inner literal parser succeeds first. -/
theorem c10_oneOrMore_eq_zeroOrMore_witness :
    oneOrMore (matchLiteral "d".toList) "ddddog".toList =
      zeroOrMore (matchLiteral "d".toList) "ddddog".toList :=
  c10_oneOrMore_eq_zeroOrMore (matchLiteral "d".toList) "ddddog".toList
    "dddog".toList "d".toList (by decide)
